import Mathlib

/-!
Verification of the anansi HTTP middleware repository.

This file gives a shallow embedding of the response-writer decorator
(package webio, responses/write.go), of the JSON response helper
responses.Write (responses/write.go lines 6-15), and of the Log
middleware's body-truncation logic (requests/middleware.go), and proves
the specification claims about them.

Modelling conventions:
  - Go byte slices are lists of naturals; Go error values are their
    message strings; Go int and int64 are Lean Int (all quantities that
    stay non-negative, such as timestamps and durations in nanoseconds,
    are Nat).
  - The underlying http.ResponseWriter handle is modelled by its live
    header map together with the trace of calls forwarded to it; a
    forwarded WriteHeader carries the snapshot of the header map at the
    moment the status line is transmitted.
  - Tee sinks (io.Writer values stored in custom.teeWriter) are
    identified by natural numbers; the bytes each sink has received are
    tracked in the writer state.
-/

namespace Anansi

/-- Go bytes are modelled as natural numbers. -/
abbrev Byte := Nat

/-- Go error values are modelled by their message strings. -/
abbrev GoErr := String

/-- Go net/http Header (a map from key to list of values), modelled as an
association list in key-insertion order.  Keys are used verbatim; the
stdlib's MIME canonicalisation of keys happens outside this repository. -/
abbrev HeaderMap := List (String × List String)

/-- Header lookup: the list of values stored under a key (empty if the
key is absent), as Go map indexing returns the zero value. -/
def headerGet (h : HeaderMap) (k : String) : List String :=
  match h with
  | [] => []
  | (k2, vs) :: rest => if k2 = k then vs else headerGet rest k

/-- Go Header.Add: append one more value under a key, keeping every
existing value. -/
def headerAdd (h : HeaderMap) (k v : String) : HeaderMap :=
  match h with
  | [] => [(k, [v])]
  | (k2, vs) :: rest =>
      if k2 = k then (k2, vs ++ [v]) :: rest else (k2, vs) :: headerAdd rest k v

/-- Go Header.Set: replace all values under a key by the single given
value. -/
def headerSet (h : HeaderMap) (k v : String) : HeaderMap :=
  match h with
  | [] => [(k, [v])]
  | (k2, vs) :: rest =>
      if k2 = k then (k2, [v]) :: rest else (k2, vs) :: headerSet rest k v

/-- Default latency header name, constant defaultResponseTime
(write.go line 30). -/
def defaultResponseTime : String := "X-Response-Time"

/-- One call forwarded to the underlying http.ResponseWriter handle.  A
writeHeader event carries the snapshot of the header map at the moment
the status line is forwarded (net/http transmits the headers as they
stand at that call). -/
inductive Event where
  | writeHeader (code : Int) (hdrs : HeaderMap)
  | write (buf : List Byte)
  | flush
  | hijack
  | push (target : String)
  | readFrom (data : List Byte)
  | setHeader (key value : String)
deriving DecidableEq

/-- State of one writer instance together with its underlying handle.
Field-for-field image of struct custom (write.go lines 49-57): start is
the construction timestamp and duration the recorded latency, both in
nanoseconds; code is 0 (the Go zero value) until recorded; teeCur
identifies the installed tee sink (none for the nil io.Writer); header
is the underlying handle's live header map; events is the trace of calls
forwarded to the underlying handle; teeBufs accumulates the bytes each
tee sink has received. -/
structure WriterState where
  start : Nat
  code : Int
  duration : Nat
  wroteHeader : Bool
  headerName : String
  teeCur : Option Nat
  header : HeaderMap
  events : List Event
  teeBufs : Nat → List Byte

/-- Construction of the custom struct inside newWriter (write.go lines
62-70): an empty configured header name falls back to
defaultResponseTime, start is the current time, everything else is the
Go zero value.  The handle's header map may already hold entries. -/
def mkWriter (now : Nat) (headerName : String) (h0 : HeaderMap) : WriterState :=
  { start := now
    code := 0
    duration := 0
    wroteHeader := false
    headerName := if headerName = "" then defaultResponseTime else headerName
    teeCur := none
    header := h0
    events := []
    teeBufs := fun _ => [] }

/-- Value of the latency header (write.go lines 98-99): the elapsed
nanoseconds truncated to whole milliseconds (Duration.Milliseconds
divides by 1000000, truncating toward zero; the elapsed time is
non-negative), rendered by strconv.Itoa with an ms suffix. -/
def latencyValue (durNs : Nat) : String :=
  toString (durNs / 1000000) ++ "ms"

/-- custom.WriteHeader (write.go lines 91-103): on the first call it
records the elapsed duration and the code, adds the latency header to
the underlying handle's header map, and only then forwards WriteHeader;
once wroteHeader is set every later call is a no-op.  now is the clock
reading at the call (so now - start is time.Since(t.start)). -/
def writeHeaderC (s : WriterState) (now : Nat) (code : Int) : WriterState :=
  if s.wroteHeader then s
  else
    { s with
        wroteHeader := true
        duration := now - s.start
        code := code
        header := headerAdd s.header s.headerName (latencyValue (now - s.start))
        events := s.events ++
          [Event.writeHeader code
            (headerAdd s.header s.headerName (latencyValue (now - s.start)))] }

/-- Pointwise update of the tee-sink buffers: sink k receives buf. -/
def teeAppend (f : Nat → List Byte) (k : Nat) (buf : List Byte) : Nat → List Byte :=
  fun j => if j = k then f j ++ buf else f j

/-- Effect of the tee branch of custom.Write (write.go lines 115-121) on
the sink buffers: nothing when no tee sink is installed, otherwise the
installed sink receives the bytes. -/
def teeForward (cur : Option Nat) (f : Nat → List Byte) (buf : List Byte) :
    Nat → List Byte :=
  match cur with
  | none => f
  | some k => teeAppend f k buf

/-- custom.Write (write.go lines 105-122) on the success path (the
underlying write accepts the whole buffer and neither it nor the tee
sink errors; the fallible single-call dataflow is customWriteCall
below): an implicit WriteHeader(200) if none has happened, then the
bytes are forwarded, then the tee sink (if installed) receives them. -/
def writeC (s : WriterState) (now : Nat) (buf : List Byte) : WriterState :=
  let s1 := if s.wroteHeader then s else writeHeaderC s now 200
  { s1 with
      events := s1.events ++ [Event.write buf]
      teeBufs := teeForward s1.teeCur s1.teeBufs buf }

/-- flushWriter.Flush, httpWriter.Flush and http2Writer.Flush (write.go
lines 144-148, 154-158 and 181-185) share this body exactly: set the
wroteHeader flag and forward Flush to the underlying handle.  Note that
no WriteHeader is invoked: code, duration and the header map are left
untouched. -/
def variantFlush (s : WriterState) : WriterState :=
  { s with
      wroteHeader := true
      events := s.events ++ [Event.flush] }

/-- httpWriter.Hijack (write.go lines 160-163): forward to the underlying
handle's Hijacker without touching any writer state. -/
def hijackC (s : WriterState) : WriterState :=
  { s with events := s.events ++ [Event.hijack] }

/-- httpWriter.ReadFrom (write.go lines 165-171): an implicit
WriteHeader(200) if none has happened, then the copy is forwarded to the
underlying handle's ReaderFrom (the read bytes are recorded in the
event; the tee sink is not involved). -/
def readFromC (s : WriterState) (now : Nat) (data : List Byte) : WriterState :=
  let s1 := if s.wroteHeader then s else writeHeaderC s now 200
  { s1 with events := s1.events ++ [Event.readFrom data] }

/-- http2Writer.Push (write.go lines 177-179): forward to the underlying
handle's Pusher without touching any writer state. -/
def pushC (s : WriterState) (target : String) : WriterState :=
  { s with events := s.events ++ [Event.push target] }

/-- custom.TeeWriter (write.go lines 136-138): install or replace the tee
sink. -/
def teeWriterC (s : WriterState) (k : Nat) : WriterState :=
  { s with teeCur := some k }

/-- One operation a handler may perform on the writer.  Operations that
read the clock carry the reading. -/
inductive Op where
  | writeHeader (now : Nat) (code : Int)
  | write (now : Nat) (buf : List Byte)
  | teeWriter (sink : Nat)
  | flush
  | hijack
  | readFrom (now : Nat) (data : List Byte)
  | push (target : String)
deriving DecidableEq

/-- Dispatch one operation to the method it names. -/
def step (s : WriterState) : Op → WriterState
  | .writeHeader now code => writeHeaderC s now code
  | .write now buf => writeC s now buf
  | .teeWriter k => teeWriterC s k
  | .flush => variantFlush s
  | .hijack => hijackC s
  | .readFrom now data => readFromC s now data
  | .push target => pushC s target

/-- Run a sequence of operations. -/
def run (s : WriterState) : List Op → WriterState
  | [] => s
  | op :: rest => run (step s op) rest

/-- A sequence of plain Write calls, each with its clock reading and
buffer. -/
def writesOps (ws : List (Nat × List Byte)) : List Op :=
  ws.map fun p => Op.write p.1 p.2

/-- Concatenation of the buffers of a sequence of Write calls. -/
def concatBufs (ws : List (Nat × List Byte)) : List Byte :=
  ws.foldr (fun p acc => p.2 ++ acc) []

/-- All body bytes the underlying handle has received, in order. -/
def bodyBytes (evs : List Event) : List Byte :=
  evs.foldr (fun e acc => match e with | .write b => b ++ acc | _ => acc) []

/-- Whether an event is a forwarded WriteHeader. -/
def isWriteHeaderEv : Event → Bool
  | .writeHeader _ _ => true
  | _ => false

/-- How many times the underlying handle's WriteHeader has been invoked. -/
def countWH (evs : List Event) : Nat :=
  (evs.filter isWriteHeaderEv).length

/-- The four writer variants newWriter can return (write.go lines 49,
140, 150, 173). -/
inductive Variant where
  | base
  | flushOnly
  | http1Full
  | http2Full
deriving DecidableEq

/-- The optional capabilities a variant exposes. -/
structure Caps where
  flush : Bool
  hijack : Bool
  readerFrom : Bool
  push : Bool
deriving DecidableEq

/-- Method sets of the four variant types (write.go: custom exposes no
optional capability; flushWriter adds Flush; httpWriter adds Flush,
Hijack and ReadFrom; http2Writer adds Flush and Push — matching the
static interface assertions on lines 187-193). -/
def exposedCaps : Variant → Caps
  | .base => { flush := false, hijack := false, readerFrom := false, push := false }
  | .flushOnly => { flush := true, hijack := false, readerFrom := false, push := false }
  | .http1Full => { flush := true, hijack := true, readerFrom := true, push := false }
  | .http2Full => { flush := true, hijack := false, readerFrom := false, push := true }

/-- Variant selection of newWriter (write.go lines 59-89), with the
underlying handle abstracted to the results of its four interface
probes: if protoMajor is 2 and the handle flushes and pushes, the
http2Writer; otherwise (any protoMajor other than 2) if the handle
flushes, hijacks and reads-from, the httpWriter; failing those, the
flushWriter when the handle flushes, else the bare custom writer. -/
def newWriterVariant (fl hj rf ps : Bool) (protoMajor : Int) : Variant :=
  if protoMajor = 2 then
    if fl && ps then .http2Full
    else if fl then .flushOnly
    else .base
  else
    if fl && hj && rf then .http1Full
    else if fl then .flushOnly
    else .base

/-- The selection rule exactly as the claim words it, for comparison with
newWriterVariant: the http1-full case demands protocol major exactly 1. -/
def claimSelect (fl hj rf ps : Bool) (protoMajor : Int) : Variant :=
  if protoMajor = 2 ∧ fl ∧ ps then .http2Full
  else if protoMajor = 1 ∧ fl ∧ hj ∧ rf then .http1Full
  else if fl then .flushOnly
  else .base

/-- The amended selection rule: as claimSelect but with the http1-full
case demanding protocol major different from 2. -/
def amendedSelect (fl hj rf ps : Bool) (protoMajor : Int) : Variant :=
  if protoMajor = 2 ∧ fl ∧ ps then .http2Full
  else if ¬protoMajor = 2 ∧ fl ∧ hj ∧ rf then .http1Full
  else if fl then .flushOnly
  else .base

/-- One call of custom.Write (write.go lines 105-122) with fallible
collaborators: underlying gives the underlying handle's write result
(count written, error) on a buffer, tee the installed tee sink's write
result (none when no sink is installed).  The result is the returned
pair together with the bytes handed to the tee sink (none when the tee
was not invoked).  The code returns the underlying error at once without
touching the tee; on underlying success with a sink installed it writes
buf[:n] to the sink and returns n with the sink's error. -/
def customWriteCall (underlying : List Byte → Nat × Option GoErr)
    (tee : Option (List Byte → Option GoErr)) (buf : List Byte) :
    Nat × Option GoErr × Option (List Byte) :=
  let r := underlying buf
  match r.2 with
  | some e => (r.1, some e, none)
  | none =>
    match tee with
    | none => (r.1, none, none)
    | some t => (r.1, t (buf.take r.1), some (buf.take r.1))

/-- responses.Write (responses/write.go lines 6-15): set Content-Type and
X-Content-Type-Options on the handle's header map, forward
WriteHeader(code), write the body, and re-raise any non-nil body-write
error as a panic.  The generic http.ResponseWriter is modelled by its
header map and call trace; the body write's error return is an input and
the last component is the panic payload (none when the function returns
normally). -/
def responsesWrite (h0 : HeaderMap) (code : Int) (data : List Byte)
    (writeErr : Option GoErr) : HeaderMap × List Event × Option GoErr :=
  let h1 := headerSet h0 "Content-Type" "application/json; charset=utf-8"
  let h2 := headerSet h1 "X-Content-Type-Options" "nosniff"
  (h2,
   [Event.setHeader "Content-Type" "application/json; charset=utf-8",
    Event.setHeader "X-Content-Type-Options" "nosniff",
    Event.writeHeader code h2,
    Event.write data],
   writeErr)

/-- Effective truncation limit of the Log middleware: Log replaces a
limit of exactly 0 by 8 * 1024 before building the handler
(middleware.go lines 78-81). -/
def logEffectiveMax (maxBodySize : Int) : Int :=
  if maxBodySize = 0 then 8 * 1024 else maxBodySize

/-- The three ellipsis bytes the truncation appends. -/
def ellipsis : List Byte := [46, 46, 46]

/-- logBody's truncation (middleware.go lines 146-159) applied to the
JSON-compacted body bytes (json.Compact is the stdlib's, outside this
repository, and is the identity on an already compact body, so the
compacted bytes are the input here).  When the limit is positive and the
body longer, the buffer is truncated to maxSize - 3 bytes and the
ellipsis appended; bytes.Buffer.Truncate panics — modelled as none —
exactly when its argument is negative or exceeds the buffer length. -/
def logBody (maxSize : Int) (compacted : List Byte) : Option (List Byte) :=
  if maxSize > 0 ∧ (compacted.length : Int) > maxSize then
    if maxSize - 3 < 0 ∨ (compacted.length : Int) < maxSize - 3 then none
    else some (compacted.take (maxSize - 3).toNat ++ ellipsis)
  else some compacted

/-! Helper lemmas about the header map. -/

theorem headerGet_add_self (h : HeaderMap) (k v : String) :
    headerGet (headerAdd h k v) k = headerGet h k ++ [v] := by
  induction h with
  | nil => simp [headerGet, headerAdd]
  | cons p rest ih =>
      obtain ⟨k2, vs⟩ := p
      by_cases hk : k2 = k
      · simp [headerGet, headerAdd, hk]
      · simp [headerGet, headerAdd, hk, ih]

theorem headerGet_add_other (h : HeaderMap) (k v j : String) (hj : j ≠ k) :
    headerGet (headerAdd h k v) j = headerGet h j := by
  have hkj : ¬(k = j) := fun e => hj e.symm
  induction h with
  | nil => simp [headerGet, headerAdd, hkj]
  | cons p rest ih =>
      obtain ⟨k2, vs⟩ := p
      by_cases hk : k2 = k
      · subst hk
        simp [headerGet, headerAdd, hkj]
      · simp [headerGet, headerAdd, hk, ih]

theorem headerGet_set_self (h : HeaderMap) (k v : String) :
    headerGet (headerSet h k v) k = [v] := by
  induction h with
  | nil => simp [headerGet, headerSet]
  | cons p rest ih =>
      obtain ⟨k2, vs⟩ := p
      by_cases hk : k2 = k
      · simp [headerGet, headerSet, hk]
      · simp [headerGet, headerSet, hk, ih]

theorem headerGet_set_other (h : HeaderMap) (k v j : String) (hj : j ≠ k) :
    headerGet (headerSet h k v) j = headerGet h j := by
  have hkj : ¬(k = j) := fun e => hj e.symm
  induction h with
  | nil => simp [headerGet, headerSet, hkj]
  | cons p rest ih =>
      obtain ⟨k2, vs⟩ := p
      by_cases hk : k2 = k
      · subst hk
        simp [headerGet, headerSet, hkj]
      · simp [headerGet, headerSet, hk, ih]

/-! Helper lemmas about single operations. -/

theorem writeHeaderC_of_wrote (s : WriterState) (now : Nat) (code : Int)
    (h : s.wroteHeader = true) : writeHeaderC s now code = s := by
  simp [writeHeaderC, h]

theorem writeHeaderC_of_fresh (s : WriterState) (now : Nat) (code : Int)
    (h : s.wroteHeader = false) :
    writeHeaderC s now code =
      { s with
          wroteHeader := true
          duration := now - s.start
          code := code
          header := headerAdd s.header s.headerName (latencyValue (now - s.start))
          events := s.events ++
            [Event.writeHeader code
              (headerAdd s.header s.headerName (latencyValue (now - s.start)))] } := by
  simp [writeHeaderC, h]

theorem writeHeaderC_wrote (s : WriterState) (now : Nat) (code : Int) :
    (writeHeaderC s now code).wroteHeader = true ∨ writeHeaderC s now code = s := by
  by_cases h : s.wroteHeader = true
  · exact Or.inr (writeHeaderC_of_wrote s now code h)
  · left
    rw [writeHeaderC_of_fresh s now code (by simpa using h)]

theorem writeC_of_wrote (s : WriterState) (now : Nat) (buf : List Byte)
    (h : s.wroteHeader = true) :
    writeC s now buf =
      { s with
          events := s.events ++ [Event.write buf]
          teeBufs := teeForward s.teeCur s.teeBufs buf } := by
  simp [writeC, h]

theorem writeC_of_fresh (s : WriterState) (now : Nat) (buf : List Byte)
    (h : s.wroteHeader = false) :
    writeC s now buf =
      { s with
          wroteHeader := true
          duration := now - s.start
          code := 200
          header := headerAdd s.header s.headerName (latencyValue (now - s.start))
          events := s.events ++
            [Event.writeHeader 200
              (headerAdd s.header s.headerName (latencyValue (now - s.start))),
             Event.write buf]
          teeBufs := teeForward s.teeCur s.teeBufs buf } := by
  simp [writeC, h, writeHeaderC_of_fresh s now 200 h]

theorem readFromC_of_wrote (s : WriterState) (now : Nat) (data : List Byte)
    (h : s.wroteHeader = true) :
    readFromC s now data = { s with events := s.events ++ [Event.readFrom data] } := by
  simp [readFromC, h]

theorem readFromC_of_fresh (s : WriterState) (now : Nat) (data : List Byte)
    (h : s.wroteHeader = false) :
    readFromC s now data =
      { s with
          wroteHeader := true
          duration := now - s.start
          code := 200
          header := headerAdd s.header s.headerName (latencyValue (now - s.start))
          events := s.events ++
            [Event.writeHeader 200
              (headerAdd s.header s.headerName (latencyValue (now - s.start))),
             Event.readFrom data] } := by
  simp [readFromC, h, writeHeaderC_of_fresh s now 200 h]

/-- Once the wroteHeader flag is set, no operation clears it. -/
theorem step_wrote_mono (s : WriterState) (op : Op) (h : s.wroteHeader = true) :
    (step s op).wroteHeader = true := by
  cases op <;>
    simp [step, writeHeaderC_of_wrote _ _ _ h, writeC_of_wrote _ _ _ h,
      readFromC_of_wrote _ _ _ h, variantFlush, hijackC, pushC, teeWriterC, h]

/-- Once the wroteHeader flag is set, no operation changes the recorded
code, duration or the header map. -/
theorem step_frozen (s : WriterState) (op : Op) (h : s.wroteHeader = true) :
    (step s op).code = s.code ∧ (step s op).duration = s.duration ∧
      (step s op).header = s.header := by
  cases op <;>
    simp [step, writeHeaderC_of_wrote _ _ _ h, writeC_of_wrote _ _ _ h,
      readFromC_of_wrote _ _ _ h, variantFlush, hijackC, pushC, teeWriterC]

/-! Helper lemmas about runs. -/

theorem run_nil (s : WriterState) : run s [] = s := rfl

theorem run_cons (s : WriterState) (op : Op) (rest : List Op) :
    run s (op :: rest) = run (step s op) rest := rfl

theorem run_append (s : WriterState) (l1 l2 : List Op) :
    run s (l1 ++ l2) = run (run s l1) l2 := by
  induction l1 generalizing s with
  | nil => simp [run]
  | cons op rest ih => simp [run_cons, ih]

/-- Once the wroteHeader flag is set, every later run preserves it along
with the code, the duration and the header map. -/
theorem run_frozen (ops : List Op) (s : WriterState) (h : s.wroteHeader = true) :
    (run s ops).wroteHeader = true ∧ (run s ops).code = s.code ∧
      (run s ops).duration = s.duration ∧ (run s ops).header = s.header := by
  induction ops generalizing s with
  | nil => simp [run, h]
  | cons op rest ih =>
      obtain ⟨hc, hd, hh⟩ := step_frozen s op h
      obtain ⟨iw, ic, id2, ih2⟩ := ih (step s op) (step_wrote_mono s op h)
      exact ⟨iw, ic.trans hc, id2.trans hd, ih2.trans hh⟩

/-- A run of plain writes after the header is out only appends the write
events, leaving code, duration, header, flag and tee selection alone. -/
theorem run_writes_after_header (ws : List (Nat × List Byte)) (s : WriterState)
    (h : s.wroteHeader = true) :
    (run s (writesOps ws)).events = s.events ++ ws.map (fun p => Event.write p.2) ∧
      (run s (writesOps ws)).code = s.code ∧
      (run s (writesOps ws)).header = s.header ∧
      (run s (writesOps ws)).duration = s.duration ∧
      (run s (writesOps ws)).wroteHeader = true ∧
      (run s (writesOps ws)).teeCur = s.teeCur := by
  induction ws generalizing s with
  | nil => simp [writesOps, run, h]
  | cons p rest ih =>
      have hstep := writeC_of_wrote s p.1 p.2 h
      have hw : (writeC s p.1 p.2).wroteHeader = true := by rw [hstep]; exact h
      obtain ⟨ie, ic, ih2, id2, iw, it⟩ := ih (writeC s p.1 p.2) hw
      have hrun : run s (writesOps (p :: rest)) =
          run (writeC s p.1 p.2) (writesOps rest) := by
        simp [writesOps, run_cons, step]
      refine ⟨?_, ?_, ?_, ?_, ?_, ?_⟩
      · rw [hrun, ie, hstep]
        simp
      · rw [hrun, ic, hstep]
      · rw [hrun, ih2, hstep]
      · rw [hrun, id2, hstep]
      · rw [hrun]
        exact iw
      · rw [hrun, it, hstep]

/-- Tee bookkeeping of a run of plain writes: the selected sink receives
the concatenation of the buffers, every other sink is untouched, and the
selection does not change. -/
theorem run_writes_tee (ws : List (Nat × List Byte)) (s : WriterState) :
    (run s (writesOps ws)).teeCur = s.teeCur ∧
      ∀ j, (run s (writesOps ws)).teeBufs j =
        s.teeBufs j ++ (if s.teeCur = some j then concatBufs ws else []) := by
  induction ws generalizing s with
  | nil => simp [writesOps, run, concatBufs]
  | cons p rest ih =>
      have hbufs : (writeC s p.1 p.2).teeBufs =
          teeForward s.teeCur s.teeBufs p.2 := by
        by_cases h : s.wroteHeader = true
        · rw [writeC_of_wrote s p.1 p.2 h]
        · rw [writeC_of_fresh s p.1 p.2 (by simpa using h)]
      have hcur : (writeC s p.1 p.2).teeCur = s.teeCur := by
        by_cases h : s.wroteHeader = true
        · rw [writeC_of_wrote s p.1 p.2 h]
        · rw [writeC_of_fresh s p.1 p.2 (by simpa using h)]
      obtain ⟨icur, ibufs⟩ := ih (writeC s p.1 p.2)
      constructor
      · simp [writesOps, run_cons, step] at icur ⊢
        rw [icur, hcur]
      · intro j
        have hj := ibufs j
        simp [writesOps, run_cons, step] at hj ⊢
        rw [hj, hcur, hbufs]
        by_cases hsel : s.teeCur = some j
        · simp [hsel, teeForward, teeAppend, concatBufs]
        · cases hc : s.teeCur with
          | none => simp [hc, teeForward, concatBufs]
          | some k =>
              have hkj : ¬(j = k) := by
                intro e
                exact hsel (by rw [hc, e])
              have hjk : ¬(k = j) := fun e => hkj e.symm
              simp [hc, teeForward, teeAppend, hkj, hjk]

/-- Body bytes accumulate one write at a time. -/
theorem bodyBytes_append (evs1 evs2 : List Event) :
    bodyBytes (evs1 ++ evs2) = bodyBytes evs1 ++ bodyBytes evs2 := by
  induction evs1 with
  | nil => simp [bodyBytes]
  | cons e rest ih =>
      have h1 : bodyBytes ((e :: rest) ++ evs2) =
          (match e with | Event.write b => b ++ bodyBytes (rest ++ evs2)
                        | _ => bodyBytes (rest ++ evs2)) := by
        cases e <;> rfl
      have h2 : bodyBytes (e :: rest) =
          (match e with | Event.write b => b ++ bodyBytes rest
                        | _ => bodyBytes rest) := by
        cases e <;> rfl
      rw [h1, h2]
      cases e <;> simp [ih]

theorem bodyBytes_single_write (b : List Byte) : bodyBytes [Event.write b] = b := by
  simp [bodyBytes]

theorem bodyBytes_wh_write (c : Int) (hm : HeaderMap) (b : List Byte) :
    bodyBytes [Event.writeHeader c hm, Event.write b] = b := by
  simp [bodyBytes]

/-- A run of plain writes hands the underlying handle exactly the
concatenation of the buffers, in order, regardless of the header state. -/
theorem run_writes_bodyBytes (ws : List (Nat × List Byte)) (s : WriterState) :
    bodyBytes (run s (writesOps ws)).events =
      bodyBytes s.events ++ concatBufs ws := by
  induction ws generalizing s with
  | nil => simp [writesOps, run, concatBufs]
  | cons p rest ih =>
      have hev : bodyBytes (writeC s p.1 p.2).events =
          bodyBytes s.events ++ p.2 := by
        by_cases h : s.wroteHeader = true
        · rw [writeC_of_wrote s p.1 p.2 h]
          show bodyBytes (s.events ++ [Event.write p.2]) = _
          rw [bodyBytes_append, bodyBytes_single_write]
        · rw [writeC_of_fresh s p.1 p.2 (by simpa using h)]
          show bodyBytes (s.events ++
            [Event.writeHeader 200
              (headerAdd s.header s.headerName (latencyValue (p.1 - s.start))),
             Event.write p.2]) = _
          rw [bodyBytes_append, bodyBytes_wh_write]
      have hrun : run s (writesOps (p :: rest)) =
          run (writeC s p.1 p.2) (writesOps rest) := by
        simp [writesOps, run_cons, step]
      rw [hrun, ih (writeC s p.1 p.2), hev]
      simp [concatBufs, List.append_assoc]

theorem countWH_append (evs1 evs2 : List Event) :
    countWH (evs1 ++ evs2) = countWH evs1 + countWH evs2 := by
  simp [countWH, List.filter_append]

theorem countWH_wh (c : Int) (hm : HeaderMap) :
    countWH [Event.writeHeader c hm] = 1 := rfl

theorem countWH_wh_write (c : Int) (hm : HeaderMap) (b : List Byte) :
    countWH [Event.writeHeader c hm, Event.write b] = 1 := rfl

theorem countWH_wh_readFrom (c : Int) (hm : HeaderMap) (d : List Byte) :
    countWH [Event.writeHeader c hm, Event.readFrom d] = 1 := rfl

theorem countWH_write (b : List Byte) : countWH [Event.write b] = 0 := rfl

theorem countWH_flush : countWH [Event.flush] = 0 := rfl

theorem countWH_hijack : countWH [Event.hijack] = 0 := rfl

theorem countWH_push (t : String) : countWH [Event.push t] = 0 := rfl

theorem countWH_readFrom (d : List Byte) : countWH [Event.readFrom d] = 0 := rfl

/-- One step keeps the invariant that the underlying WriteHeader has run
at most once, and not at all while the flag is down. -/
theorem step_whInv (s : WriterState) (op : Op)
    (h1 : s.wroteHeader = false → countWH s.events = 0)
    (h2 : countWH s.events ≤ 1) :
    ((step s op).wroteHeader = false → countWH (step s op).events = 0) ∧
      countWH (step s op).events ≤ 1 := by
  by_cases hw : s.wroteHeader = true
  · have hev : countWH (step s op).events = countWH s.events := by
      cases op <;>
        simp [step, writeHeaderC_of_wrote _ _ _ hw, writeC_of_wrote _ _ _ hw,
          readFromC_of_wrote _ _ _ hw, variantFlush, hijackC, pushC, teeWriterC,
          countWH_append, countWH_write, countWH_flush, countWH_hijack,
          countWH_push, countWH_readFrom]
    constructor
    · intro hfalse
      rw [step_wrote_mono s op hw] at hfalse
      exact absurd hfalse (by simp)
    · rw [hev]
      exact h2
  · have hw0 : s.wroteHeader = false := by simpa using hw
    have h0 : countWH s.events = 0 := h1 hw0
    cases op <;>
      simp [step, writeHeaderC_of_fresh _ _ _ hw0, writeC_of_fresh _ _ _ hw0,
        readFromC_of_fresh _ _ _ hw0, variantFlush, hijackC, pushC, teeWriterC,
        countWH_append, countWH_wh, countWH_wh_write, countWH_wh_readFrom,
        countWH_write, countWH_flush, countWH_hijack, countWH_push,
        countWH_readFrom, h0, hw0]

/-- Over any run from any state satisfying it, the at-most-one-WriteHeader
invariant persists. -/
theorem run_whInv (ops : List Op) (s : WriterState)
    (h1 : s.wroteHeader = false → countWH s.events = 0)
    (h2 : countWH s.events ≤ 1) :
    countWH (run s ops).events ≤ 1 := by
  induction ops generalizing s with
  | nil => exact h2
  | cons op rest ih =>
      obtain ⟨g1, g2⟩ := step_whInv s op h1 h2
      exact ih (step s op) g1 g2

/-- One step keeps the invariant that duration is zero while the flag is
down. -/
theorem step_durInv (s : WriterState) (op : Op)
    (h : s.wroteHeader = false → s.duration = 0) :
    (step s op).wroteHeader = false → (step s op).duration = 0 := by
  by_cases hw : s.wroteHeader = true
  · intro hfalse
    rw [step_wrote_mono s op hw] at hfalse
    exact absurd hfalse (by simp)
  · have hw0 : s.wroteHeader = false := by simpa using hw
    cases op <;>
      simp [step, writeHeaderC_of_fresh _ _ _ hw0, writeC_of_fresh _ _ _ hw0,
        readFromC_of_fresh _ _ _ hw0, variantFlush, hijackC, pushC, teeWriterC,
        hw0, h hw0]

/-- Over any run, duration stays zero while no header write has happened. -/
theorem run_durInv (ops : List Op) (s : WriterState)
    (h : s.wroteHeader = false → s.duration = 0) :
    (run s ops).wroteHeader = false → (run s ops).duration = 0 := by
  induction ops generalizing s with
  | nil => exact h
  | cons op rest ih => exact ih (step s op) (step_durInv s op h)

/-! The claims. -/

/-- C3: for every sequence of Write calls with no preceding explicit
WriteHeader, the first Write implicitly invokes WriteHeader(200) before
forwarding the bytes — the underlying handle receives status 200 (with
the latency header already in the transmitted header set) strictly
before the first body bytes, and Code() returns 200 afterward. -/
theorem claim_C3 (t0 : Nat) (name : String) (h0 : HeaderMap)
    (first : Nat × List Byte) (rest : List (Nat × List Byte)) :
    (run (mkWriter t0 name h0) (writesOps (first :: rest))).code = 200 ∧
      (run (mkWriter t0 name h0) (writesOps (first :: rest))).events =
        Event.writeHeader 200
            (headerAdd h0 (mkWriter t0 name h0).headerName
              (latencyValue (first.1 - t0))) ::
          Event.write first.2 :: rest.map (fun p => Event.write p.2) := by
  have hfresh : (mkWriter t0 name h0).wroteHeader = false := rfl
  have hstep := writeC_of_fresh (mkWriter t0 name h0) first.1 first.2 hfresh
  have hrun : run (mkWriter t0 name h0) (writesOps (first :: rest)) =
      run (writeC (mkWriter t0 name h0) first.1 first.2) (writesOps rest) := by
    simp [writesOps, run_cons, step]
  have hw : (writeC (mkWriter t0 name h0) first.1 first.2).wroteHeader = true := by
    rw [hstep]
  obtain ⟨ie, ic, _, _, _, _⟩ := run_writes_after_header rest _ hw
  constructor
  · rw [hrun, ic, hstep]
  · rw [hrun, ie, hstep]
    simp [mkWriter]

/-- C4: the header-sent transition is terminal and first-call-wins.
After any WriteHeader has gone through, a later WriteHeader with any
code (equal or different) leaves the whole state — code, duration,
header set, trace — literally unchanged; the first WriteHeader on a
fresh writer records its code and raises the flag; and over every
operation sequence from construction the underlying handle's
WriteHeader is invoked at most once. -/
theorem claim_C4 :
    (∀ (s : WriterState) (now : Nat) (c : Int), s.wroteHeader = true →
        writeHeaderC s now c = s) ∧
    (∀ (s : WriterState) (now : Nat) (c : Int), s.wroteHeader = false →
        (writeHeaderC s now c).code = c ∧
        (writeHeaderC s now c).wroteHeader = true ∧
        ∀ (now2 : Nat) (c2 : Int),
          writeHeaderC (writeHeaderC s now c) now2 c2 = writeHeaderC s now c) ∧
    (∀ (t0 : Nat) (name : String) (h0 : HeaderMap) (ops : List Op),
        countWH (run (mkWriter t0 name h0) ops).events ≤ 1) := by
  refine ⟨writeHeaderC_of_wrote, ?_, ?_⟩
  · intro s now c h
    rw [writeHeaderC_of_fresh s now c h]
    exact ⟨rfl, rfl, fun now2 c2 => writeHeaderC_of_wrote _ now2 c2 rfl⟩
  · intro t0 name h0 ops
    exact run_whInv ops (mkWriter t0 name h0) (fun _ => rfl) (by simp [mkWriter, countWH])

/-- C4 witness: a concrete double WriteHeader, 503 then 404, keeps code
503 and the second call changes nothing; a concrete three-operation run
invokes the underlying WriteHeader exactly once. -/
theorem claim_C4_witness :
    (mkWriter 0 "" []).wroteHeader = false ∧
    (writeHeaderC (mkWriter 0 "" []) 7 503).code = 503 ∧
    writeHeaderC (writeHeaderC (mkWriter 0 "" []) 7 503) 9 404 =
      writeHeaderC (mkWriter 0 "" []) 7 503 ∧
    (writeHeaderC (writeHeaderC (mkWriter 0 "" []) 7 503) 9 404).code = 503 ∧
    countWH (run (mkWriter 0 "" [])
      [Op.writeHeader 7 503, Op.writeHeader 9 404, Op.write 11 [1]]).events ≤ 1 := by
  obtain ⟨h2a, _, h2c⟩ := claim_C4.2.1 (mkWriter 0 "" []) 7 503 rfl
  refine ⟨rfl, h2a, h2c 9 404, ?_, claim_C4.2.2 0 "" [] _⟩
  rw [h2c 9 404]
  exact h2a

/-- C8: Duration() is 0 at construction and stays 0 while no header write
has occurred; the first effective header write (explicit WriteHeader or
the implicit one inside Write) records exactly the elapsed time between
construction and that call (non-negative by construction, being a
difference of clock readings); and once the header-sent flag is up no
operation sequence ever changes the recorded duration. -/
theorem claim_C8 :
    (∀ (t0 : Nat) (name : String) (h0 : HeaderMap),
        (mkWriter t0 name h0).duration = 0) ∧
    (∀ (t0 : Nat) (name : String) (h0 : HeaderMap) (ops : List Op),
        (run (mkWriter t0 name h0) ops).wroteHeader = false →
        (run (mkWriter t0 name h0) ops).duration = 0) ∧
    (∀ (s : WriterState) (now : Nat) (c : Int), s.wroteHeader = false →
        (writeHeaderC s now c).duration = now - s.start) ∧
    (∀ (s : WriterState) (now : Nat) (buf : List Byte), s.wroteHeader = false →
        (writeC s now buf).duration = now - s.start) ∧
    (∀ (s : WriterState) (ops : List Op), s.wroteHeader = true →
        (run s ops).duration = s.duration) := by
  refine ⟨fun _ _ _ => rfl, ?_, ?_, ?_, ?_⟩
  · intro t0 name h0 ops
    exact run_durInv ops (mkWriter t0 name h0) (fun _ => rfl)
  · intro s now c h
    rw [writeHeaderC_of_fresh s now c h]
  · intro s now buf h
    rw [writeC_of_fresh s now buf h]
  · intro s ops h
    exact (run_frozen ops s h).2.2.1

/-- C8 witness: a writer built at time 5 still reports duration 0 after
operations that write no header; an explicit WriteHeader at time 12
records duration 7; and a later ignored WriteHeader plus a Flush leave
it at 7. -/
theorem claim_C8_witness :
    (mkWriter 5 "" []).duration = 0 ∧
    (run (mkWriter 5 "" []) [Op.teeWriter 0, Op.hijack]).wroteHeader = false ∧
    (run (mkWriter 5 "" []) [Op.teeWriter 0, Op.hijack]).duration = 0 ∧
    (mkWriter 5 "" []).wroteHeader = false ∧
    (writeHeaderC (mkWriter 5 "" []) 12 204).duration = 7 ∧
    (writeHeaderC (mkWriter 5 "" []) 12 204).wroteHeader = true ∧
    (run (writeHeaderC (mkWriter 5 "" []) 12 204)
        [Op.writeHeader 99 500, Op.flush]).duration = 7 := by
  have w1 := claim_C8.1 5 "" []
  have w2 := claim_C8.2.1 5 "" [] [Op.teeWriter 0, Op.hijack] (by decide)
  have w3 := claim_C8.2.2.1 (mkWriter 5 "" []) 12 204 rfl
  have w4 := claim_C8.2.2.2.2 (writeHeaderC (mkWriter 5 "" []) 12 204)
    [Op.writeHeader 99 500, Op.flush] (by decide)
  refine ⟨w1, by decide, w2, rfl, w3, by decide, ?_⟩
  rw [w4]
  exact w3

/-- C5: at the first header-write event exactly one latency header is
appended — existing values under the key survive and exactly one new
value is added, other keys are untouched — with the configured key
(defaulting to X-Response-Time when the configured name is empty) and
the elapsed time truncated to whole milliseconds rendered as an integer
followed by ms (latencyValue); the status line forwarded to the
underlying handle already carries the augmented header set; and once the
header-sent flag is up no operation touches the header map again. -/
theorem claim_C5 :
    (∀ (t0 : Nat) (h0 : HeaderMap),
        (mkWriter t0 "" h0).headerName = defaultResponseTime) ∧
    (∀ (t0 : Nat) (name : String) (h0 : HeaderMap), name ≠ "" →
        (mkWriter t0 name h0).headerName = name) ∧
    (∀ durNs : Nat, latencyValue durNs = toString (durNs / 1000000) ++ "ms") ∧
    (∀ (s : WriterState) (now : Nat) (c : Int), s.wroteHeader = false →
        headerGet (writeHeaderC s now c).header s.headerName =
          headerGet s.header s.headerName ++ [latencyValue (now - s.start)] ∧
        (∀ j, j ≠ s.headerName →
          headerGet (writeHeaderC s now c).header j = headerGet s.header j) ∧
        (writeHeaderC s now c).events =
          s.events ++ [Event.writeHeader c (writeHeaderC s now c).header]) ∧
    (∀ (s : WriterState) (op : Op), s.wroteHeader = true →
        (step s op).header = s.header) := by
  refine ⟨fun _ _ => rfl, ?_, fun _ => rfl, ?_, fun s op h => (step_frozen s op h).2.2⟩
  · intro t0 name h0 hname
    simp [mkWriter, hname]
  · intro s now c h
    rw [writeHeaderC_of_fresh s now c h]
    exact ⟨headerGet_add_self _ _ _,
      fun j hj => headerGet_add_other _ _ _ j hj, rfl⟩

/-- C5 witness: with the configured name empty the key is
X-Response-Time; a writer built at time 3 whose handle already carries
an X-Response-Time value gets the new value appended after it — 4500000
elapsed nanoseconds give 4ms, truncated, not rounded — while another key
is untouched. -/
theorem claim_C5_witness :
    (mkWriter 0 "" []).headerName = defaultResponseTime ∧
    "Lat" ≠ "" ∧ (mkWriter 0 "Lat" []).headerName = "Lat" ∧
    (mkWriter 3 "" [("X-Response-Time", ["old"]), ("K", ["v"])]).wroteHeader = false ∧
    headerGet (writeHeaderC
        (mkWriter 3 "" [("X-Response-Time", ["old"]), ("K", ["v"])]) 4500003 201).header
      "X-Response-Time" = ["old", "4ms"] ∧
    headerGet (writeHeaderC
        (mkWriter 3 "" [("X-Response-Time", ["old"]), ("K", ["v"])]) 4500003 201).header
      "K" = ["v"] := by
  have h := claim_C5.2.2.2.1
    (mkWriter 3 "" [("X-Response-Time", ["old"]), ("K", ["v"])]) 4500003 201 rfl
  have hself := h.1
  have hother := h.2.1 "K" (by decide)
  exact ⟨claim_C5.1 0 [], by decide, claim_C5.2.1 0 "Lat" [] (by decide), rfl,
    hself, hother⟩

/-- C1 (amended): ReadFrom with no header written forces an implicit
WriteHeader(200) before forwarding the copy — afterwards Code() is 200
and the latency header has been added, and the status event precedes the
copy event; Flush (the shared body of the flush method of all three
variants that expose it) merely raises the header-sent flag and forwards
the flush: it invokes no WriteHeader, so code, duration and the header
map are untouched; Hijack and Push forward to the underlying handle
changing nothing but the trace. -/
theorem claim_C1 :
    (∀ s : WriterState,
        (variantFlush s).wroteHeader = true ∧
        (variantFlush s).code = s.code ∧
        (variantFlush s).duration = s.duration ∧
        (variantFlush s).header = s.header ∧
        (variantFlush s).events = s.events ++ [Event.flush]) ∧
    (∀ (s : WriterState) (now : Nat) (data : List Byte), s.wroteHeader = false →
        (readFromC s now data).code = 200 ∧
        (readFromC s now data).wroteHeader = true ∧
        headerGet (readFromC s now data).header s.headerName =
          headerGet s.header s.headerName ++ [latencyValue (now - s.start)] ∧
        (readFromC s now data).events =
          s.events ++
            [Event.writeHeader 200
              (headerAdd s.header s.headerName (latencyValue (now - s.start))),
             Event.readFrom data]) ∧
    (∀ s : WriterState, hijackC s =
        { s with events := s.events ++ [Event.hijack] }) ∧
    (∀ (s : WriterState) (target : String), pushC s target =
        { s with events := s.events ++ [Event.push target] }) := by
  refine ⟨fun s => ⟨rfl, rfl, rfl, rfl, rfl⟩, ?_, fun _ => rfl, fun _ _ => rfl⟩
  intro s now data h
  rw [readFromC_of_fresh s now data h]
  exact ⟨rfl, rfl, headerGet_add_self _ _ _, rfl⟩

/-- C1 counterexample: on a fresh flush-capable writer a single Flush
leaves Code() at 0, not 200, adds no latency header and forwards no
WriteHeader to the underlying handle — refuting the claim that Flush
forces an implicit WriteHeader(200). -/
theorem claim_C1_counterexample :
    (variantFlush (mkWriter 0 "" [])).wroteHeader = true ∧
    (variantFlush (mkWriter 0 "" [])).code ≠ 200 ∧
    headerGet (variantFlush (mkWriter 0 "" [])).header defaultResponseTime = [] ∧
    countWH (variantFlush (mkWriter 0 "" [])).events = 0 := by
  decide

/-- C1 witness: a concrete ReadFrom on a fresh writer at 3000002ns after
construction at 2ns yields code 200 and a 3ms latency header. -/
theorem claim_C1_witness :
    (mkWriter 2 "" []).wroteHeader = false ∧
    (readFromC (mkWriter 2 "" []) 3000002 [9]).code = 200 ∧
    (readFromC (mkWriter 2 "" []) 3000002 [9]).wroteHeader = true ∧
    headerGet (readFromC (mkWriter 2 "" []) 3000002 [9]).header
      "X-Response-Time" = ["3ms"] := by
  have h := claim_C1.2.1 (mkWriter 2 "" []) 3000002 [9] rfl
  exact ⟨rfl, h.1, h.2.1, h.2.2.1⟩

theorem teeWriterC_teeCur (s : WriterState) (k : Nat) :
    (teeWriterC s k).teeCur = some k := rfl

theorem teeWriterC_teeBufs (s : WriterState) (k : Nat) :
    (teeWriterC s k).teeBufs = s.teeBufs := rfl

theorem mkWriter_teeBufs (t0 : Nat) (name : String) (h0 : HeaderMap) (k : Nat) :
    (mkWriter t0 name h0).teeBufs k = [] := rfl

/-- C7: a tee sink installed before any write accumulates, byte for byte
and in order, exactly the concatenation of the buffers passed to Write
after installation, while the underlying handle receives the same body
bytes; buffers written before installation never reach the sink; and
replacing the sink routes only the subsequent Write calls to the new
sink, leaving the old sink's accumulation as it was. -/
theorem claim_C7 :
    (∀ (t0 : Nat) (name : String) (h0 : HeaderMap) (k : Nat)
        (ws : List (Nat × List Byte)),
        (run (mkWriter t0 name h0) (Op.teeWriter k :: writesOps ws)).teeBufs k =
          concatBufs ws ∧
        bodyBytes (run (mkWriter t0 name h0)
            (Op.teeWriter k :: writesOps ws)).events = concatBufs ws) ∧
    (∀ (t0 : Nat) (name : String) (h0 : HeaderMap) (k : Nat)
        (pre post : List (Nat × List Byte)),
        (run (mkWriter t0 name h0)
            (writesOps pre ++ Op.teeWriter k :: writesOps post)).teeBufs k =
          concatBufs post) ∧
    (∀ (t0 : Nat) (name : String) (h0 : HeaderMap) (k j : Nat), k ≠ j →
        ∀ (w1 w2 : List (Nat × List Byte)),
        (run (mkWriter t0 name h0)
            (Op.teeWriter k :: (writesOps w1 ++ Op.teeWriter j :: writesOps w2))).teeBufs
          k = concatBufs w1 ∧
        (run (mkWriter t0 name h0)
            (Op.teeWriter k :: (writesOps w1 ++ Op.teeWriter j :: writesOps w2))).teeBufs
          j = concatBufs w2) := by
  refine ⟨?_, ?_, ?_⟩
  · intro t0 name h0 k ws
    have hrun : run (mkWriter t0 name h0) (Op.teeWriter k :: writesOps ws) =
        run (teeWriterC (mkWriter t0 name h0) k) (writesOps ws) := rfl
    obtain ⟨-, hbufs⟩ := run_writes_tee ws (teeWriterC (mkWriter t0 name h0) k)
    have hb := hbufs k
    rw [hrun, hb]
    constructor
    · simp [teeWriterC, mkWriter]
    · rw [run_writes_bodyBytes ws (teeWriterC (mkWriter t0 name h0) k)]
      simp [teeWriterC, mkWriter, bodyBytes]
  · intro t0 name h0 k pre post
    have hkey : run (mkWriter t0 name h0)
        (writesOps pre ++ Op.teeWriter k :: writesOps post) =
        run (teeWriterC (run (mkWriter t0 name h0) (writesOps pre)) k)
          (writesOps post) := by
      rw [run_append]
      rfl
    obtain ⟨-, hbufs1⟩ := run_writes_tee pre (mkWriter t0 name h0)
    have hpre : (run (mkWriter t0 name h0) (writesOps pre)).teeBufs k = [] := by
      have h := hbufs1 k
      rw [show (mkWriter t0 name h0).teeCur = none from rfl,
        mkWriter_teeBufs] at h
      simpa using h
    obtain ⟨-, hbufs2⟩ := run_writes_tee post
      (teeWriterC (run (mkWriter t0 name h0) (writesOps pre)) k)
    have h := hbufs2 k
    rw [teeWriterC_teeCur, if_pos rfl, teeWriterC_teeBufs, hpre] at h
    rw [hkey, h]
    simp
  · intro t0 name h0 k j hkj w1 w2
    have hjk : ¬(j = k) := fun e => hkj e.symm
    have hkey : run (mkWriter t0 name h0)
        (Op.teeWriter k :: (writesOps w1 ++ Op.teeWriter j :: writesOps w2)) =
        run (teeWriterC (run (teeWriterC (mkWriter t0 name h0) k) (writesOps w1)) j)
          (writesOps w2) := by
      show run (teeWriterC (mkWriter t0 name h0) k)
          (writesOps w1 ++ Op.teeWriter j :: writesOps w2) = _
      rw [run_append]
      rfl
    obtain ⟨-, hbufs1⟩ := run_writes_tee w1 (teeWriterC (mkWriter t0 name h0) k)
    have hb1k : (run (teeWriterC (mkWriter t0 name h0) k) (writesOps w1)).teeBufs k =
        concatBufs w1 := by
      have h := hbufs1 k
      rw [teeWriterC_teeCur, if_pos rfl, teeWriterC_teeBufs, mkWriter_teeBufs] at h
      simpa using h
    have hb1j : (run (teeWriterC (mkWriter t0 name h0) k) (writesOps w1)).teeBufs j =
        [] := by
      have h := hbufs1 j
      rw [teeWriterC_teeCur, if_neg (by simpa using hkj), teeWriterC_teeBufs,
        mkWriter_teeBufs] at h
      simpa using h
    obtain ⟨-, hbufs2⟩ := run_writes_tee w2
      (teeWriterC (run (teeWriterC (mkWriter t0 name h0) k) (writesOps w1)) j)
    constructor
    · have h := hbufs2 k
      rw [teeWriterC_teeCur _ j, if_neg (by simpa using hjk),
        teeWriterC_teeBufs _ j, hb1k] at h
      rw [hkey, h]
      simp
    · have h := hbufs2 j
      rw [teeWriterC_teeCur _ j, if_pos rfl, teeWriterC_teeBufs _ j, hb1j] at h
      rw [hkey, h]
      simp

/-- C7 witness: Write of two bytes ab then cd after installing sink 0
accumulates abcd in the sink and hands abcd to the underlying handle;
sink 0 installed before two writes, replaced by sink 1 before two more,
ends with exactly the first two buffers while sink 1 has the last two
(0 and 1 distinct); a write before installation never shows up. -/
theorem claim_C7_witness :
    (run (mkWriter 0 "" [])
        (Op.teeWriter 0 :: writesOps [(1, [97, 98]), (2, [99, 100])])).teeBufs 0 =
      [97, 98, 99, 100] ∧
    bodyBytes (run (mkWriter 0 "" [])
        (Op.teeWriter 0 :: writesOps [(1, [97, 98]), (2, [99, 100])])).events =
      [97, 98, 99, 100] ∧
    (run (mkWriter 0 "" [])
        (writesOps [(1, [5, 6])] ++ Op.teeWriter 0 :: writesOps [(2, [7])])).teeBufs 0 =
      [7] ∧
    (0 : Nat) ≠ 1 ∧
    (run (mkWriter 0 "" [])
        (Op.teeWriter 0 ::
          (writesOps [(1, [10])] ++ Op.teeWriter 1 :: writesOps [(2, [11])]))).teeBufs 0 =
      [10] ∧
    (run (mkWriter 0 "" [])
        (Op.teeWriter 0 ::
          (writesOps [(1, [10])] ++ Op.teeWriter 1 :: writesOps [(2, [11])]))).teeBufs 1 =
      [11] := by
  have ha := claim_C7.1 0 "" [] 0 [(1, [97, 98]), (2, [99, 100])]
  have hb := claim_C7.2.1 0 "" [] 0 [(1, [5, 6])] [(2, [7])]
  have hc := claim_C7.2.2 0 "" [] 0 1 (by decide) [(1, [10])] [(2, [11])]
  exact ⟨ha.1, ha.2, hb, by decide, hc.1, hc.2⟩

/-- C2 (amended): newWriter picks the http2-full variant exactly when the
protocol major is 2 and the handle flushes and pushes, the http1-full
variant exactly when the protocol major is anything other than 2 and the
handle flushes, hijacks and reads-from, otherwise the flush-only variant
when the handle flushes, and the base variant when it does not — and the
four variants expose exactly the listed capability sets. -/
theorem claim_C2 :
    (∀ (fl hj rf ps : Bool) (protoMajor : Int),
        newWriterVariant fl hj rf ps protoMajor =
          amendedSelect fl hj rf ps protoMajor) ∧
    exposedCaps Variant.base =
      { flush := false, hijack := false, readerFrom := false, push := false } ∧
    exposedCaps Variant.flushOnly =
      { flush := true, hijack := false, readerFrom := false, push := false } ∧
    exposedCaps Variant.http1Full =
      { flush := true, hijack := true, readerFrom := true, push := false } ∧
    exposedCaps Variant.http2Full =
      { flush := true, hijack := false, readerFrom := false, push := true } := by
  refine ⟨?_, rfl, rfl, rfl, rfl⟩
  intro fl hj rf ps pm
  by_cases h : pm = 2 <;> cases fl <;> cases hj <;> cases rf <;> cases ps <;>
    simp [newWriterVariant, amendedSelect, h]

/-- C2 counterexample: a handle that flushes, hijacks and reads-from
under protocol major 0 (any major other than 1 and 2 works the same) is
given the http1-full variant by the code, while the claim's rule —
http1-full only at protocol major exactly 1 — selects flush-only. -/
theorem claim_C2_counterexample :
    newWriterVariant true true true false 0 = Variant.http1Full ∧
    claimSelect true true true false 0 = Variant.flushOnly ∧
    newWriterVariant true true true false 0 ≠ claimSelect true true true false 0 := by
  decide

/-- C6: in one Write call, an error from the underlying handle is
returned at once with the underlying count and the tee sink is not
invoked; on underlying success returning n with a sink installed,
exactly the first n bytes of the buffer go to the sink and the sink's
error (if any) is the call's error, the count still being n; with no
sink installed the successful result passes through. -/
theorem claim_C6 :
    (∀ (underlying : List Byte → Nat × Option GoErr)
        (tee : Option (List Byte → Option GoErr)) (buf : List Byte)
        (n : Nat) (e : GoErr), underlying buf = (n, some e) →
        customWriteCall underlying tee buf = (n, some e, none)) ∧
    (∀ (underlying : List Byte → Nat × Option GoErr)
        (t : List Byte → Option GoErr) (buf : List Byte) (n : Nat),
        underlying buf = (n, none) →
        customWriteCall underlying (some t) buf =
          (n, t (buf.take n), some (buf.take n))) ∧
    (∀ (underlying : List Byte → Nat × Option GoErr) (buf : List Byte) (n : Nat),
        underlying buf = (n, none) →
        customWriteCall underlying none buf = (n, none, none)) := by
  refine ⟨?_, ?_, ?_⟩ <;> intro underlying t buf n
  · intro e h
    simp [customWriteCall, h]
  · intro h
    simp [customWriteCall, h]
  · simp_all [customWriteCall]

/-- C6 witness: concrete fallible collaborators — an underlying failure
after 1 byte returns that failure and never reaches the tee; an
underlying success of 1 byte on a 2-byte buffer tees exactly the first
byte and surfaces the tee's error as the call's error. -/
theorem claim_C6_witness :
    (fun _ : List Byte => ((1 : Nat), some "boom")) [7, 8] = (1, some "boom") ∧
    customWriteCall (fun _ => (1, some "boom"))
      (some fun _ => some "teefail") [7, 8] = (1, some "boom", none) ∧
    (fun _ : List Byte => ((1 : Nat), (none : Option GoErr))) [7, 8] = (1, none) ∧
    customWriteCall (fun _ => (1, none))
      (some fun b => if b = [7] then some "teefail" else none) [7, 8] =
      (1, some "teefail", some [7]) := by
  refine ⟨rfl, claim_C6.1 _ _ [7, 8] 1 "boom" rfl, rfl, ?_⟩
  exact claim_C6.2.1 (fun _ => (1, none))
    (fun b => if b = [7] then some "teefail" else none) [7, 8] 1 rfl

/-- C9: responses.Write first sets Content-Type to the JSON media type
and X-Content-Type-Options to nosniff (the values the handle then
transmits with the status line), then forwards WriteHeader(code), then
writes the body, and panics exactly when the body write errors, with
that error as the payload. -/
theorem claim_C9 (h0 : HeaderMap) (code : Int) (data : List Byte)
    (writeErr : Option GoErr) :
    headerGet (responsesWrite h0 code data writeErr).1 "Content-Type" =
      ["application/json; charset=utf-8"] ∧
    headerGet (responsesWrite h0 code data writeErr).1 "X-Content-Type-Options" =
      ["nosniff"] ∧
    (responsesWrite h0 code data writeErr).2.1 =
      [Event.setHeader "Content-Type" "application/json; charset=utf-8",
       Event.setHeader "X-Content-Type-Options" "nosniff",
       Event.writeHeader code (responsesWrite h0 code data writeErr).1,
       Event.write data] ∧
    (responsesWrite h0 code data writeErr).2.2 = writeErr := by
  refine ⟨?_, ?_, rfl, rfl⟩
  · show headerGet (headerSet (headerSet h0 "Content-Type"
      "application/json; charset=utf-8") "X-Content-Type-Options" "nosniff")
      "Content-Type" = _
    rw [headerGet_set_other _ _ _ _ (by decide), headerGet_set_self]
  · show headerGet (headerSet (headerSet h0 "Content-Type"
      "application/json; charset=utf-8") "X-Content-Type-Options" "nosniff")
      "X-Content-Type-Options" = _
    rw [headerGet_set_self]

/-- C10 (amended): Log treats a limit of exactly 0 as 8192 and any other
limit as given; for a limit of at least 3, a compacted body longer than
the limit is truncated to its first limit minus 3 bytes plus the
three-byte ellipsis, total length exactly the limit; a body at or under
a positive limit, or any body under a negative limit, passes through
unmodified; and for the positive limits 1 and 2 a longer body makes
bytes.Buffer.Truncate panic (argument negative), so nothing is logged. -/
theorem claim_C10 :
    logEffectiveMax 0 = 8192 ∧
    (∀ m : Int, m ≠ 0 → logEffectiveMax m = m) ∧
    (∀ (m : Int) (body : List Byte), 3 ≤ m → (body.length : Int) > m →
        logBody m body = some (body.take (m - 3).toNat ++ ellipsis) ∧
        ((body.take (m - 3).toNat ++ ellipsis).length : Int) = m) ∧
    (∀ (m : Int) (body : List Byte), 0 < m → (body.length : Int) ≤ m →
        logBody m body = some body) ∧
    (∀ (m : Int) (body : List Byte), m < 0 → logBody m body = some body) ∧
    (∀ (m : Int) (body : List Byte), 0 < m → m < 3 → (body.length : Int) > m →
        logBody m body = none) := by
  refine ⟨rfl, ?_, ?_, ?_, ?_, ?_⟩
  · intro m hm
    simp [logEffectiveMax, hm]
  · intro m body h3 hlong
    constructor
    · rw [logBody, if_pos ⟨by omega, hlong⟩, if_neg]
      rintro (h | h) <;> omega
    · have hnn : (0 : Int) ≤ m - 3 := by omega
      have hle : (m - 3).toNat ≤ body.length := by omega
      simp [List.length_take, ellipsis, Nat.min_eq_left hle]
      omega
  · intro m body hpos hshort
    rw [logBody, if_neg]
    rintro ⟨-, h⟩
    omega
  · intro m body hneg
    rw [logBody, if_neg]
    rintro ⟨h, -⟩
    omega
  · intro m body hpos hlt3 hlong
    rw [logBody, if_pos ⟨hpos, hlong⟩, if_pos (Or.inl (by omega))]

/-- C10 counterexample: with the positive limit 1 and the two-byte
compacted body 00, the claim demands a logged output of length exactly
1, but the code panics (Truncate is called with the negative argument
minus 2) and produces nothing. -/
theorem claim_C10_counterexample :
    (0 : Int) < 1 ∧ (([48, 48] : List Byte).length : Int) > 1 ∧
    logBody 1 [48, 48] = none := by
  refine ⟨by decide, by decide, ?_⟩
  rw [logBody, if_pos (by decide), if_pos (Or.inl (by decide))]

/-- C10 witness: limit 5 on a six-byte body logs the first two bytes plus
the ellipsis — five bytes, exactly the limit; limit 3 on a two-byte body
and limit minus 1 on a long body pass the body through; limit 2 on a
three-byte body panics; a nonzero limit is kept as configured. -/
theorem claim_C10_witness :
    logBody 5 [48, 49, 50, 51, 52, 53] = some [48, 49, 46, 46, 46] ∧
    (([48, 49, 46, 46, 46] : List Byte).length : Int) = 5 ∧
    logBody 3 [7, 7] = some [7, 7] ∧
    logBody (-1) [1, 2, 3, 4, 5] = some [1, 2, 3, 4, 5] ∧
    logBody 2 [1, 2, 3] = none ∧
    logEffectiveMax 7 = 7 := by
  have h1 := claim_C10.2.2.1 5 [48, 49, 50, 51, 52, 53] (by decide) (by decide)
  have h2 := claim_C10.2.2.2.1 3 [7, 7] (by decide) (by decide)
  have h3 := claim_C10.2.2.2.2.1 (-1) [1, 2, 3, 4, 5] (by decide)
  have h4 := claim_C10.2.2.2.2.2 2 [1, 2, 3] (by decide) (by decide) (by decide)
  have h5 := claim_C10.2.1 7 (by decide)
  exact ⟨h1.1, h1.2, h2, h3, h4, h5⟩

end Anansi
